import Mathlib

/-!
Verification of the change-detection and projection pipeline of the `stalk`
repository (packages `maputil`, `cache`, `diff`, `watcher`).

The generic JSON-like tree handled by the Go code (`map[string]interface{}`
values produced by `json.Unmarshal`) is embedded as the inductive `Value`
below.  A Go `map[string]interface{}` is embedded as an association list
`Obj` with string keys; the Go `nil` interface (a decoded JSON `null`) is
the constructor `Value.null`.  All functions are translated directly from
the Go sources.
-/

namespace Stalk

/-- A decoded generic JSON value (`interface{}` after `json.Unmarshal`):
object, array, string, number, boolean, or null (the Go nil interface). -/
inductive Value where
  | obj  : List (String × Value) → Value
  | arr  : List Value → Value
  | str  : String → Value
  | num  : Int → Value
  | bool : Bool → Value
  | null : Value

/-- A decoded JSON object, i.e. a Go `map[string]interface{}`.  Go map keys
are unique; order in the association list is irrelevant for map semantics. -/
abbrev Obj := List (String × Value)

/-- Go map read `obj[key]`: the value of the first entry with this key. -/
def lookupKey (k : String) : Obj → Option Value
  | [] => none
  | (k', v) :: rest => if k' = k then some v else lookupKey k rest

/-- Go `delete(obj, key)`. -/
def eraseKey (k : String) (o : Obj) : Obj :=
  o.filter (fun kv => kv.1 ≠ k)

/-- Go map write `obj[key] = v` for a key that is already present
(the only way `RemovePath` writes). -/
def setKey (k : String) (v : Value) (o : Obj) : Obj :=
  o.map (fun kv => if kv.1 = k then (k, v) else kv)

/-- Type `maputil.Path`: an ordered list of field names. -/
abbrev Path := List String

/-- Method `Path.Head` (path.go): first segment, `""` for an empty path. -/
def pathHead : Path → String
  | [] => ""
  | h :: _ => h

/-- Method `Path.Tail` (path.go): remaining segments, `nil` (here `[]`) for a path
with at most one segment. -/
def pathTail : Path → Path
  | [] => []
  | _ :: t => t

/-- Splitting a character list around every occurrence of `c`; this is Go's
`strings.Split` for a one-character separator (always returns at least one
part, `[[]]` on empty input, exactly as `strings.Split("", sep) == [""]`). -/
def splitOnChar (c : Char) : List Char → List (List Char)
  | [] => [[]]
  | a :: rest =>
    match splitOnChar c rest with
    | [] => [[a]]
    | g :: gs => if a = c then [] :: g :: gs else (a :: g) :: gs

/-- Go `strings.Split(path, ".")`. -/
def splitOnDot (s : String) : List String :=
  (splitOnChar '.' s.data).map (fun cs => String.mk cs)

/-- Function `maputil.ParsePath` (path.go): split the expression on `.`, discard
empty parts, fail if the expression is empty or no valid part remains. -/
def parsePath (path : String) : Except String Path :=
  if path = "" then
    .error "path cannot be empty"
  else
    let parts := splitOnDot path
    let validParts := parts.filter (fun part => part ≠ "")
    if validParts = [] then
      .error "path does not contain a single path element"
    else
      .ok validParts

/-- Function `maputil.RemovePath` (maputil.go): remove the value addressed by `path`,
deleting a parent key whose child object was emptied by the removal. -/
def removePath : Obj → Path → Except String Obj
  | _,   [] => .error "path cannot be empty"
  | obj, [head] => .ok (eraseKey head obj)
  | obj, head :: tail =>
    match lookupKey head obj with
    | none => .ok obj
    | some childValue =>
      match childValue with
      | .obj childObj =>
        match removePath childObj tail with
        | .error _ => .error "failed to remove child"
        | .ok modifiedChildObj =>
          if modifiedChildObj.isEmpty then
            .ok (eraseKey head obj)
          else
            .ok (setKey head (.obj modifiedChildObj) obj)
      | _ => .ok obj

/-- Function `maputil.getSubPaths`: the tails of all paths whose head is `head`. -/
def getSubPaths (paths : List Path) (head : String) : List Path :=
  (paths.filter (fun p => pathHead p = head)).map pathTail

/-!
`maputil.PruneObject` and `maputil.pruneValue` are mutually recursive in Go:
`PruneObject` validates its path set and filters every entry of the object
through `pruneValue`, and `pruneValue` recurses into `PruneObject` for
object-valued entries.  Here the per-entry loop of `PruneObject` is the
function `pruneEntries`, and the recursive call `PruneObject(valueMap,
subPaths)` inside `pruneValue` appears with `PruneObject`'s body (its two
validation checks) inlined, so that the recursion is structural on the
tree; the lemma `pruneValue_obj_call` below recovers the original call
shape.  A Go `nil` result of `pruneValue` is `Value.null`: both a decoded
JSON `null` and the "drop this key" marker are the untyped `nil` in Go.
-/
mutual

/-- The `for key, value := range obj` loop of `maputil.PruneObject`: drop an
entry when `pruneValue` yields `nil`, otherwise store the filtered value. -/
def pruneEntries (entries : Obj) (paths : List Path) : Except String Obj :=
  match entries with
  | [] => .ok []
  | (key, value) :: rest =>
    match pruneValue key value paths with
    | .error e => .error e
    | .ok filteredValue =>
      match pruneEntries rest paths with
      | .error e => .error e
      | .ok rest' =>
        match filteredValue with
        | .null => .ok rest'
        | fv => .ok ((key, fv) :: rest')

/-- Function `maputil.pruneValue`: `nil` (here `.null`) if no path's head matches the
key; the value itself if it is not an object or some matching path
terminates here; otherwise the recursively pruned object. -/
def pruneValue (key : String) (value : Value) (paths : List Path) : Except String Value :=
  if paths.any (fun p => key = pathHead p) then
    match value with
    | .obj valueMap =>
      let subPaths := getSubPaths paths key
      if subPaths.any (fun p => p.isEmpty) then
        .ok value
      else
        -- recursive call `PruneObject(valueMap, subPaths)`, body inlined:
        if subPaths.length = 0 then .error "paths cannot be empty"
        else
          match subPaths.findIdx? (fun p => p.isEmpty) with
          | some i => .error ("path " ++ toString (i + 1) ++ " is empty")
          | none =>
            match pruneEntries valueMap subPaths with
            | .error e => .error e
            | .ok pruned => .ok (.obj pruned)
    | _ => .ok value
  else
    .ok .null

end

/-- Function `maputil.PruneObject`: validate the path set, then filter each entry. -/
def pruneObject (obj : Obj) (paths : List Path) : Except String Obj :=
  if paths.length = 0 then .error "paths cannot be empty"
  else
    match paths.findIdx? (fun p => p.isEmpty) with
    | some i => .error ("path " ++ toString (i + 1) ++ " is empty")
    | none => pruneEntries obj paths

/-!
## Resource cache (`pkg/cache/cache.go`)

Timestamps (`time.Time`) are embedded as abstract instants `Nat`, with `0`
for the zero value `time.Time{}`.  An `unstructured.Unstructured` is
embedded as its identity accessors (group/version/kind, namespace, name,
resource version, generation) plus its decoded generic payload.
-/

mutual

/-- Go `DeepCopy` of a generic decoded value: a structural copy of every
nested map and slice (the copy made by `Unstructured.DeepCopy`). -/
def deepCopyValue : Value → Value
  | .obj m => .obj (deepCopyEntries m)
  | .arr xs => .arr (deepCopyList xs)
  | .str s => .str s
  | .num n => .num n
  | .bool b => .bool b
  | .null => .null

/-- Deep copy of a slice of generic values. -/
def deepCopyList : List Value → List Value
  | [] => []
  | v :: rest => deepCopyValue v :: deepCopyList rest

/-- Deep copy of a generic object. -/
def deepCopyEntries : Obj → Obj
  | [] => []
  | (k, v) :: rest => (k, deepCopyValue v) :: deepCopyEntries rest

end

/-- An `unstructured.Unstructured` object: identity accessors plus the
decoded generic payload. -/
structure Unstructured where
  group : String
  version : String
  kind : String
  namespc : String
  name : String
  resourceVersion : String
  generation : Int
  content : Obj

/-- Method `obj.DeepCopy()`: an independent copy of the object. -/
def deepCopy (o : Unstructured) : Unstructured :=
  { group := o.group, version := o.version, kind := o.kind,
    namespc := o.namespc, name := o.name,
    resourceVersion := o.resourceVersion, generation := o.generation,
    content := deepCopyEntries o.content }

/-- Format of `schema.GroupVersionKind.String()`. -/
def gvkString (o : Unstructured) : String :=
  o.group ++ "/" ++ o.version ++ ", Kind=" ++ o.kind

/-- Method `ResourceCache.objectKey` (cache.go): `"<gvk>/<namespace>/<name>"`. -/
def cacheObjectKey (obj : Unstructured) : String :=
  gvkString obj ++ "/" ++ obj.namespc ++ "/" ++ obj.name

/-- One cache entry: owned snapshot copy plus observation instant. -/
structure CacheItem where
  resource : Unstructured
  lastSeen : Nat

/-- The identity-keyed store `map[string]cacheItem` of `ResourceCache`. -/
abbrev ResourceCache := List (String × CacheItem)

/-- Go map read `m[k]`. -/
def mapGet {α : Type} (k : String) : List (String × α) → Option α
  | [] => none
  | (k', v) :: rest => if k' = k then some v else mapGet k rest

/-- Go map write `m[k] = v`. -/
def mapSet {α : Type} (k : String) (v : α) (m : List (String × α)) : List (String × α) :=
  (k, v) :: m.filter (fun kv => kv.1 ≠ k)

/-- Go `delete(m, k)`. -/
def mapDelete {α : Type} (k : String) (m : List (String × α)) : List (String × α) :=
  m.filter (fun kv => kv.1 ≠ k)

/-- Method `ResourceCache.Get`: a deep copy of the stored snapshot and its
timestamp, or `(none, 0)` (absent, zero time) if unseen. -/
def cacheGet (rc : ResourceCache) (obj : Unstructured) : Option Unstructured × Nat :=
  match mapGet (cacheObjectKey obj) rc with
  | none => (none, 0)
  | some existing => (some (deepCopy existing.resource), existing.lastSeen)

/-- Method `ResourceCache.Set`: store a deep copy together with the current time. -/
def cacheSet (rc : ResourceCache) (obj : Unstructured) (now : Nat) : ResourceCache :=
  mapSet (cacheObjectKey obj) { resource := deepCopy obj, lastSeen := now } rc

/-- Method `ResourceCache.Delete`: remove the entry (no-op if absent). -/
def cacheDelete (rc : ResourceCache) (obj : Unstructured) : ResourceCache :=
  mapDelete (cacheObjectKey obj) rc

/-!
## Differ (`pkg/diff`)

External capabilities (the `cdiff` text differ, `gookit` styling, JSONPath
evaluation, JSON/YAML encoding of a tree, time formatting) are embedded as
explicit function parameters; the theorems below hold for every choice of
these functions.
-/

/-- The `cdiff.Tag` values referenced by `colors.go` and `differ.go`. -/
inductive Tag where
  | openHeader
  | openSection
  | openDeletedModified
  | openDeletedNotModified
  | openInsertedModified
  | openInsertedNotModified

/-- A `map[cdiff.Tag]color.Style`; `none` is a nil/absent style. -/
abbrev ColorTheme := Tag → Option String

/-- Function `cloneColorTheme` (colors.go): an entry-by-entry copy of the theme. -/
def cloneColorTheme (theme : ColorTheme) : ColorTheme :=
  fun tag => theme tag

/-- Function `disableWordDiff` (colors.go): style word-level modifications exactly
like unmodified deletions/insertions, turning the rendering into a
line-level diff. -/
def disableWordDiffTheme (theme : ColorTheme) : ColorTheme :=
  fun tag =>
    match tag with
    | .openDeletedModified => theme .openDeletedNotModified
    | .openInsertedModified => theme .openInsertedNotModified
    | t => theme t

/-- Struct `diff.Options` (options.go).  `compiledJSONPath` is the compiled query
(`q tree = none` embeds both a failing `FindResults` and an empty result
list). -/
structure DiffOptions where
  contextLines : Int
  hideEmptyDiffs : Bool
  disableWordDiff : Bool
  jsonPath : String
  compiledJSONPath : Option (Obj → Option Value)
  includePaths : List String
  parsedIncludePaths : List Path
  excludePaths : List String
  parsedExcludePaths : List Path
  createColorTheme : ColorTheme
  updateColorTheme : ColorTheme
  deleteColorTheme : ColorTheme

/-- The include/exclude parsing loops of `Options.Validate`, wrapping the
first parse failure in an error naming the expression kind. -/
def parsePathList (label : String) : List String → Except String (List Path)
  | [] => .ok []
  | s :: rest =>
    match parsePath s with
    | .error e => .error ("invalid " ++ label ++ " expression " ++ s ++ ": " ++ e)
    | .ok p =>
      match parsePathList label rest with
      | .error e => .error e
      | .ok ps => .ok (p :: ps)

/-- Method `Options.Validate` (options.go), with the external JSONPath compiler as
the parameter `compile` (`none` embeds a parse failure). -/
def validateOptions (compile : String → Option (Obj → Option Value))
    (o : DiffOptions) : Except String DiffOptions :=
  if o.contextLines < 0 then
    .error "context lines cannot be negative"
  else
    match
      ((if o.jsonPath ≠ "" then
        match compile o.jsonPath with
        | none => .error ("invalid JSON path: " ++ o.jsonPath)
        | some q => .ok { o with compiledJSONPath := some q }
      else .ok o) : Except String DiffOptions)
    with
    | .error e => .error e
    | .ok o1 =>
      match
        ((if o1.includePaths.length > 0 then
          match parsePathList "include" o1.includePaths with
          | .error e => .error e
          | .ok ps => .ok { o1 with parsedIncludePaths := ps }
        else .ok o1) : Except String DiffOptions)
      with
      | .error e => .error e
      | .ok o2 =>
        if o2.excludePaths.length > 0 then
          match parsePathList "exclude" o2.excludePaths with
          | .error e => .error e
          | .ok ps => .ok { o2 with parsedExcludePaths := ps }
        else .ok o2

/-- Function `diff.NewDiffer` (differ.go): validate, then, when word-diff is
disabled, replace the three themes by their word-diff-disabled clones.
The result embeds the `Differ`'s effective option set. -/
def newDiffer (compile : String → Option (Obj → Option Value))
    (opt : DiffOptions) : Except String DiffOptions :=
  match validateOptions compile opt with
  | .error e => .error ("invalid options: " ++ e)
  | .ok o =>
    if o.disableWordDiff then
      .ok { o with
            createColorTheme := disableWordDiffTheme (cloneColorTheme o.createColorTheme),
            updateColorTheme := disableWordDiffTheme (cloneColorTheme o.updateColorTheme),
            deleteColorTheme := disableWordDiffTheme (cloneColorTheme o.deleteColorTheme) }
    else
      .ok o

/-- The JSONPath stage of `Differ.preprocess` (differ.go lines 97-125):
`Sum.inl` is the generic object the remaining stages run on, `Sum.inr` a
non-object query result that is encoded and returned immediately.  A `none`
query answer (failed or empty `FindResults`) keeps the original object. -/
def queryStage (opt : DiffOptions) (genericObj : Obj) : Sum Obj Value :=
  match opt.compiledJSONPath with
  | none => Sum.inl genericObj
  | some q =>
    match q genericObj with
    | none => Sum.inl genericObj
    | some r =>
      match r with
      | .obj m => Sum.inl m
      | v => Sum.inr v

/-- The exclude loop of `Differ.preprocess`: each exclude path removed in
order against the current state of the tree. -/
def removeAll (o : Obj) : List Path → Except String Obj
  | [] => .ok o
  | p :: rest =>
    match removePath o p with
    | .error e => .error ("failed to apply exclude expression: " ++ e)
    | .ok o' => removeAll o' rest

/-- Method `Differ.preprocess` (differ.go): JSONPath extraction, then include
pruning, then exclude removal, then canonical encoding.  The composed
JSON-marshal/YAML conversion of the final value is the abstract parameter
`enc`; a `nil` object encodes to `""`. -/
def preprocess (enc : Value → String) (opt : DiffOptions)
    (obj : Option Unstructured) : Except String String :=
  match obj with
  | none => .ok ""
  | some o =>
    match queryStage opt o.content with
    | .inr scalar => .ok (enc scalar)
    | .inl o1 =>
      match (if opt.parsedIncludePaths.length > 0 then pruneObject o1 opt.parsedIncludePaths else .ok o1) with
      | .error e => .error ("failed to apply include inpressions: " ++ e)
      | .ok o2 =>
        match (if opt.parsedExcludePaths.length > 0 then removeAll o2 opt.parsedExcludePaths else .ok o2) with
        | .error e => .error e
        | .ok o3 => .ok (enc (.obj o3))

/-- Function `objectKey` (differ.go): `name`, prefixed by `namespace/` when set. -/
def differObjectKey (o : Unstructured) : String :=
  if o.namespc ≠ "" then o.namespc ++ "/" ++ o.name else o.name

/-- Function `diffTitle` (differ.go); `fmtTime` is the RFC3339 formatter. -/
def diffTitle (fmtTime : Nat → String) (obj : Option Unstructured) (lastSeen : Nat) : String :=
  match obj with
  | none => "(none)"
  | some o =>
    o.kind ++ " " ++ differObjectKey o ++ " v" ++ o.resourceVersion ++
      " (" ++ fmtTime lastSeen ++ ") (gen. " ++ toString o.generation ++ ")"

/-- Method `Differ.PrintDiff` (differ.go): preprocess both sides, suppress the
rendering when the encodings agree and empty diffs are hidden, otherwise
pick the theme (update, create for a nil previous, delete for a nil
current) and render.  The external `cdiff` word-by-word diff plus unified
rendering (including `fixBadSection`) is the abstract parameter `render`;
`.ok none` is a deliberately suppressed rendering. -/
def printDiff (enc : Value → String) (fmtTime : Nat → String)
    (render : String → String → String → String → Int → ColorTheme → String)
    (opt : DiffOptions) (oldObj newObj : Option Unstructured)
    (lastSeen now : Nat) : Except String (Option String) :=
  match preprocess enc opt oldObj with
  | .error e => .error ("failed to process previous object: " ++ e)
  | .ok oldString =>
    match preprocess enc opt newObj with
    | .error e => .error ("failed to process current object: " ++ e)
    | .ok newString =>
      if oldString = newString ∧ opt.hideEmptyDiffs = true then
        .ok none
      else
        let titleA := diffTitle fmtTime oldObj lastSeen
        let titleB := diffTitle fmtTime newObj now
        let theme0 := opt.updateColorTheme
        let theme1 := match oldObj with
          | none => opt.createColorTheme
          | some _ => theme0
        let theme2 := match newObj with
          | none => opt.deleteColorTheme
          | some _ => theme1
        .ok (some (render oldString newString titleA titleB opt.contextLines theme2))

/-- Type `watch.EventType` (the printer's switch ignores Bookmark/Error). -/
inductive EventType where
  | added
  | modified
  | deleted
  | bookmark
  | errorType

/-- The per-notification error log of `Printer.Print` (`log.Errorf`). -/
def printErrorLog : Except String (Option String) → Option String
  | .error e => some ("Failed to show diff: " ++ e)
  | .ok _ => none

/-- Method `Printer.Print` (printer.go): render the event's diff, log (but do not
propagate) a render failure, and update the cache: `Set` after Added and
Modified, `Delete` after Deleted.  Result: the new cache and the error-log
entry.  `now` is the current instant (`time.Now`). -/
def printerPrint (enc : Value → String) (fmtTime : Nat → String)
    (render : String → String → String → String → Int → ColorTheme → String)
    (opt : DiffOptions) (rc : ResourceCache) (obj : Unstructured)
    (event : EventType) (now : Nat) : ResourceCache × Option String :=
  match event with
  | .added =>
    let res := printDiff enc fmtTime render opt none (some obj) 0 now
    (cacheSet rc obj now, printErrorLog res)
  | .modified =>
    let (previous, lastSeen) := cacheGet rc obj
    let res := printDiff enc fmtTime render opt previous (some obj) lastSeen now
    (cacheSet rc obj now, printErrorLog res)
  | .deleted =>
    let res := printDiff enc fmtTime render opt (some obj) none now now
    (cacheDelete rc obj, printErrorLog res)
  | _ => (rc, none)

/-!
## CLI wiring (`main.go`)
-/

/-- The parsed CLI flags of `main.go` relevant to the differ. -/
structure CLIOptions where
  hideManagedFields : Bool
  jsonPath : String
  hidePaths : List String
  showPaths : List String
  showEmpty : Bool
  disableWordDiff : Bool
  contextLines : Int

/-- The `diff.Options` value constructed by `main` (main.go lines 82-96):
note that the source hardcodes `DisableWordDiff: true` instead of passing
the parsed `--diff-by-line` flag `opt.disableWordDiff`, and appends the
well-known `metadata.managedFields` exclude path when `--hide-managed` is
set.  The three global color themes are the parameters. -/
def mainDifferOptions (createTheme updateTheme deleteTheme : ColorTheme)
    (opt : CLIOptions) : DiffOptions :=
  let differOpts : DiffOptions :=
    { contextLines := opt.contextLines
      hideEmptyDiffs := !opt.showEmpty
      disableWordDiff := true
      jsonPath := opt.jsonPath
      compiledJSONPath := none
      includePaths := opt.showPaths
      parsedIncludePaths := []
      excludePaths := opt.hidePaths
      parsedExcludePaths := []
      createColorTheme := createTheme
      updateColorTheme := updateTheme
      deleteColorTheme := deleteTheme }
  if opt.hideManagedFields then
    { differOpts with excludePaths := differOpts.excludePaths ++ ["metadata.managedFields"] }
  else
    differOpts

/-- The projection pipeline in the order the spec describes it (§4.5 step
2): query extraction first; a non-object result skips the path stages
entirely; otherwise include pruning (when include paths are configured),
then every exclude path removed sequentially, then canonical encoding.
This definition follows the spec's wording; `preprocess` above follows the
code, and the two are compared in `preprocess_stage_order`. -/
def specProjectionPipeline (enc : Value → String) (opt : DiffOptions)
    (obj : Option Unstructured) : Except String String :=
  match obj with
  | none => .ok ""
  | some o =>
    let afterQuery : Value :=
      match opt.compiledJSONPath with
      | none => .obj o.content
      | some q =>
        match q o.content with
        | none => .obj o.content
        | some v => v
    match afterQuery with
    | .obj m =>
      match (if opt.parsedIncludePaths ≠ [] then pruneObject m opt.parsedIncludePaths else .ok m) with
      | .error e => .error ("failed to apply include inpressions: " ++ e)
      | .ok o2 =>
        match removeAll o2 opt.parsedExcludePaths with
        | .error e => .error e
        | .ok o3 => .ok (enc (.obj o3))
    | v => .ok (enc v)

/-!
## Association-list lemmas (Go map semantics)
-/

theorem lookupKey_eraseKey_self (k : String) (o : Obj) :
    lookupKey k (eraseKey k o) = none := by
  induction o with
  | nil => rfl
  | cons kv rest ih =>
    obtain ⟨k', v⟩ := kv
    by_cases h : k' = k
    · simpa [eraseKey, List.filter_cons, h] using ih
    · simpa [eraseKey, List.filter_cons, h, lookupKey] using ih

theorem eraseKey_eraseKey (k : String) (o : Obj) :
    eraseKey k (eraseKey k o) = eraseKey k o := by
  simp only [eraseKey, List.filter_filter, Bool.and_self]

theorem lookupKey_setKey_of_present (k : String) (v w : Value) (o : Obj)
    (h : lookupKey k o = some w) : lookupKey k (setKey k v o) = some v := by
  induction o with
  | nil => exact absurd h (by simp [lookupKey])
  | cons kv rest ih =>
    obtain ⟨k', v'⟩ := kv
    rw [setKey, List.map_cons]
    by_cases hk : k' = k
    · subst hk
      rw [if_pos rfl, lookupKey, if_pos rfl]
    · rw [lookupKey, if_neg hk] at h
      rw [if_neg hk, lookupKey, if_neg hk]
      exact ih h

theorem setKey_setKey (k : String) (v : Value) (o : Obj) :
    setKey k v (setKey k v o) = setKey k v o := by
  induction o with
  | nil => rfl
  | cons kv rest ih =>
    obtain ⟨k', v'⟩ := kv
    simp only [setKey, List.map_cons] at ih ⊢
    congr 1
    by_cases hk : k' = k
    · subst hk
      simp
    · simp [hk]

/-!
## RemovePath lemmas and claims
-/

/-- Claim C1: For every tree `t` and path with at least two segments whose
head `k` addresses an object-valued child `c` of `t`: if removing the tail
from `c` empties it, `RemovePath` deletes the head key `k` itself, so the
result holds no dangling empty object at `k`. -/
theorem removePath_collapses_emptied_child (t c c' : Obj) (k : String)
    (tail : Path) (htail : tail ≠ [])
    (hchild : lookupKey k t = some (.obj c))
    (hrec : removePath c tail = .ok c') (hempty : c' = []) :
    removePath t (k :: tail) = .ok (eraseKey k t) ∧
      lookupKey k (eraseKey k t) = none := by
  match tail, htail with
  | t2 :: rest, _ =>
    refine ⟨?_, lookupKey_eraseKey_self k t⟩
    simp only [removePath, hchild, hrec, hempty, List.isEmpty_nil, if_true]

/-- Witness for C1: `RemovePath({"foo":{"bar":12}}, "foo.bar") == {}`. -/
theorem removePath_collapses_emptied_child_witness :
    removePath [("foo", Value.obj [("bar", Value.num 12)])] ["foo", "bar"] = .ok [] ∧
      lookupKey "foo" ([] : Obj) = none := by
  have h := removePath_collapses_emptied_child
    [("foo", Value.obj [("bar", Value.num 12)])] [("bar", Value.num 12)] []
    "foo" ["bar"] (by simp) rfl rfl rfl
  exact ⟨h.1, rfl⟩

/-- Claim C5: `RemovePath` is idempotent for non-empty paths:
`RemovePath(RemovePath(t, p), p) == RemovePath(t, p)`. -/
theorem removePath_idempotent (p : Path) (t t' : Obj) (hp : p ≠ [])
    (h : removePath t p = .ok t') : removePath t' p = .ok t' := by
  induction p generalizing t t' with
  | nil => exact absurd rfl hp
  | cons k tail ih =>
    match tail with
    | [] =>
      rw [removePath] at h
      obtain rfl : eraseKey k t = t' := by injection h
      rw [removePath, eraseKey_eraseKey]
    | t2 :: rest =>
      match hl : lookupKey k t with
      | none =>
        simp only [removePath, hl] at h
        obtain rfl : t = t' := by injection h
        simp only [removePath, hl]
      | some (Value.obj c) =>
        simp only [removePath, hl] at h
        match hrec : removePath c (t2 :: rest) with
        | .error e =>
          simp only [hrec] at h
          exact absurd h (by simp)
        | .ok c' =>
          simp only [hrec] at h
          by_cases hemp : c'.isEmpty
          · rw [if_pos hemp] at h
            obtain rfl : eraseKey k t = t' := by injection h
            simp only [removePath, lookupKey_eraseKey_self]
          · rw [if_neg hemp] at h
            obtain rfl : setKey k (.obj c') t = t' := by injection h
            simp only [removePath,
              lookupKey_setKey_of_present k (.obj c') (.obj c) t hl,
              ih c c' (by simp) hrec]
            rw [if_neg hemp, setKey_setKey]
      | some (Value.arr xs) =>
        simp only [removePath, hl] at h
        obtain rfl : t = t' := by injection h
        simp only [removePath, hl]
      | some (Value.str s) =>
        simp only [removePath, hl] at h
        obtain rfl : t = t' := by injection h
        simp only [removePath, hl]
      | some (Value.num n) =>
        simp only [removePath, hl] at h
        obtain rfl : t = t' := by injection h
        simp only [removePath, hl]
      | some (Value.bool b) =>
        simp only [removePath, hl] at h
        obtain rfl : t = t' := by injection h
        simp only [removePath, hl]
      | some Value.null =>
        simp only [removePath, hl] at h
        obtain rfl : t = t' := by injection h
        simp only [removePath, hl]

/-- Witness for C5 at a concrete tree and path. -/
theorem removePath_idempotent_witness :
    removePath [("spec", Value.obj [("replicas", Value.num 2), ("paused", Value.bool true)])]
      ["spec", "replicas"]
      = .ok [("spec", Value.obj [("paused", Value.bool true)])] ∧
    removePath [("spec", Value.obj [("paused", Value.bool true)])] ["spec", "replicas"]
      = .ok [("spec", Value.obj [("paused", Value.bool true)])] := by
  refine ⟨rfl, ?_⟩
  exact removePath_idempotent ["spec", "replicas"]
    [("spec", Value.obj [("replicas", Value.num 2), ("paused", Value.bool true)])]
    [("spec", Value.obj [("paused", Value.bool true)])] (by simp) rfl

/-!
## PruneObject lemmas
-/

/-- The inlined code in `pruneValue` is exactly the recursive call
`PruneObject(valueMap, getSubPaths(paths, key))` of the Go source. -/
theorem pruneValue_obj_call (key : String) (m : Obj) (paths : List Path)
    (h1 : paths.any (fun p => key = pathHead p))
    (h2 : (getSubPaths paths key).any (fun p => p.isEmpty) = false) :
    pruneValue key (.obj m) paths =
      match pruneObject m (getSubPaths paths key) with
      | .error e => .error e
      | .ok pruned => .ok (.obj pruned) := by
  simp only [pruneValue, pruneObject, h1, h2, if_true, Bool.false_eq_true, if_false]
  split
  · rfl
  split
  · rfl
  cases pruneEntries m (getSubPaths paths key) <;> rfl

/-- A matching path head makes `getSubPaths` non-empty. -/
theorem getSubPaths_ne_nil (paths : List Path) (key : String)
    (h : paths.any (fun p => key = pathHead p) = true) :
    getSubPaths paths key ≠ [] := by
  simp only [List.any_eq_true, decide_eq_true_eq] at h
  obtain ⟨p, hp, hkp⟩ := h
  have hmem : p ∈ paths.filter (fun q => pathHead q = key) :=
    List.mem_filter.mpr ⟨hp, by simp [hkp.symm]⟩
  simp only [getSubPaths]
  intro hnil
  rw [List.map_eq_nil_iff] at hnil
  rw [hnil] at hmem
  exact List.not_mem_nil p hmem

/-- A boolean hypothesis that fails to be `true` is `false`. -/
theorem bool_eq_false {b : Bool} (h : ¬b = true) : b = false := by
  cases hb : b
  · rfl
  · exact absurd hb h

/-- On a sub-path set with no empty member, the `findIdx?` validation of
the inlined `PruneObject` call finds nothing. -/
theorem findIdx_isEmpty_none (l : List Path)
    (h : l.any (fun p => p.isEmpty) = false) :
    l.findIdx? (fun p => p.isEmpty) = none := by
  rw [List.findIdx?_eq_none_iff]
  intro x hx
  simpa using List.any_eq_false.mp h x hx

mutual

/-- Function `pruneEntries` never fails. -/
theorem pruneEntries_isOk (entries : Obj) (paths : List Path) :
    ∃ r, pruneEntries entries paths = .ok r := by
  match entries with
  | [] => exact ⟨[], rfl⟩
  | (key, value) :: rest =>
    obtain ⟨fv, hfv⟩ := pruneValue_isOk key value paths
    obtain ⟨rest', hrest⟩ := pruneEntries_isOk rest paths
    simp only [pruneEntries, hfv, hrest]
    cases fv <;> exact ⟨_, rfl⟩

/-- Function `pruneValue` never fails: the inlined validation of the recursive
`PruneObject` call is vacuous, because a matching head guarantees a
non-empty sub-path set and the empty-tail check guards the recursion. -/
theorem pruneValue_isOk (key : String) (value : Value) (paths : List Path) :
    ∃ r, pruneValue key value paths = .ok r := by
  cases value with
  | obj valueMap =>
    by_cases h1 : paths.any (fun p => key = pathHead p)
    · by_cases h2 : (getSubPaths paths key).any (fun p => p.isEmpty)
      · exact ⟨.obj valueMap, by simp only [pruneValue, h1, h2, if_true]⟩
      · have h2' : (getSubPaths paths key).any (fun p => p.isEmpty) = false :=
          bool_eq_false h2
        have hlen : ¬(getSubPaths paths key).length = 0 := by
          simpa [List.length_eq_zero] using getSubPaths_ne_nil paths key h1
        obtain ⟨pruned, hp⟩ := pruneEntries_isOk valueMap (getSubPaths paths key)
        refine ⟨.obj pruned, ?_⟩
        simp only [pruneValue, h1, h2', if_true, Bool.false_eq_true, if_false,
          if_neg hlen, findIdx_isEmpty_none _ h2', hp]
    · have h1' : paths.any (fun p => key = pathHead p) = false := bool_eq_false h1
      exact ⟨.null, by simp only [pruneValue, h1', Bool.false_eq_true, if_false]⟩
  | arr xs =>
    by_cases h1 : paths.any (fun p => key = pathHead p)
    · exact ⟨.arr xs, by simp only [pruneValue, h1, if_true]⟩
    · exact ⟨.null, by simp only [pruneValue, bool_eq_false h1, Bool.false_eq_true, if_false]⟩
  | str s =>
    by_cases h1 : paths.any (fun p => key = pathHead p)
    · exact ⟨.str s, by simp only [pruneValue, h1, if_true]⟩
    · exact ⟨.null, by simp only [pruneValue, bool_eq_false h1, Bool.false_eq_true, if_false]⟩
  | num n =>
    by_cases h1 : paths.any (fun p => key = pathHead p)
    · exact ⟨.num n, by simp only [pruneValue, h1, if_true]⟩
    · exact ⟨.null, by simp only [pruneValue, bool_eq_false h1, Bool.false_eq_true, if_false]⟩
  | bool b =>
    by_cases h1 : paths.any (fun p => key = pathHead p)
    · exact ⟨.bool b, by simp only [pruneValue, h1, if_true]⟩
    · exact ⟨.null, by simp only [pruneValue, bool_eq_false h1, Bool.false_eq_true, if_false]⟩
  | null =>
    by_cases h1 : paths.any (fun p => key = pathHead p)
    · exact ⟨.null, by simp only [pruneValue, h1, if_true]⟩
    · exact ⟨.null, by simp only [pruneValue, bool_eq_false h1, Bool.false_eq_true, if_false]⟩

end

/-- A validated path set (non-empty, no empty member) makes `PruneObject`
succeed, running the per-entry loop. -/
theorem pruneObject_isOk (t : Obj) (paths : List Path)
    (hne : paths ≠ []) (hvalid : ∀ p ∈ paths, p ≠ []) :
    pruneObject t paths = pruneEntries t paths ∧ ∃ r, pruneObject t paths = .ok r := by
  have hlen : ¬paths.length = 0 := by simpa [List.length_eq_zero] using hne
  have hfind : paths.findIdx? (fun p => p.isEmpty) = none := by
    rw [List.findIdx?_eq_none_iff]
    intro p hp
    simpa [List.isEmpty_iff] using hvalid p hp
  rw [pruneObject, if_neg hlen, hfind]
  obtain ⟨r, hr⟩ := pruneEntries_isOk t paths
  exact ⟨rfl, r, hr⟩

/-- A decoded JSON `null` entry value always filters to `nil`: `pruneValue`
returns the (nil) value itself when a path matches and the nil drop marker
when none does — indistinguishable results in Go. -/
theorem pruneValue_null_eq (key : String) (paths : List Path) :
    pruneValue key .null paths = .ok .null := by
  by_cases h1 : paths.any (fun p => key = pathHead p)
  · simp only [pruneValue, h1, if_true]
  · simp only [pruneValue, bool_eq_false h1, Bool.false_eq_true, if_false]

/-- When some path terminates exactly at `key`, `pruneValue` keeps the
value verbatim (shortest path wins). -/
theorem pruneValue_terminal (key : String) (v : Value) (paths : List Path)
    (h : ∃ p ∈ paths, pathHead p = key ∧ pathTail p = []) :
    pruneValue key v paths = .ok v := by
  obtain ⟨p, hp, hhead, htail⟩ := h
  have h1 : paths.any (fun q => key = pathHead q) = true := by
    simp only [List.any_eq_true, decide_eq_true_eq]
    exact ⟨p, hp, hhead.symm⟩
  cases v with
  | obj m =>
    have h2 : (getSubPaths paths key).any (fun q => q.isEmpty) = true := by
      simp only [List.any_eq_true]
      refine ⟨pathTail p, ?_, by simp [htail]⟩
      simp only [getSubPaths]
      exact List.mem_map_of_mem _ (List.mem_filter.mpr ⟨hp, by simp [hhead]⟩)
    simp only [pruneValue, h1, h2, if_true]
  | arr xs => simp only [pruneValue, h1, if_true]
  | str s => simp only [pruneValue, h1, if_true]
  | num n => simp only [pruneValue, h1, if_true]
  | bool b => simp only [pruneValue, h1, if_true]
  | null => simp only [pruneValue, h1, if_true]

/-- When some path matches `key` but no matching path terminates here, an
object value is replaced by the recursively pruned object — in particular
the key survives with an object value, even if the pruned object is empty. -/
theorem pruneValue_obj_nonterminal (key : String) (m : Obj) (paths : List Path)
    (hmatch : ∃ p ∈ paths, pathHead p = key)
    (hnoterm : ∀ p ∈ paths, pathHead p = key → pathTail p ≠ []) :
    ∃ m', pruneValue key (.obj m) paths = .ok (.obj m') := by
  obtain ⟨p, hp, hhead⟩ := hmatch
  have h1 : paths.any (fun q => key = pathHead q) = true := by
    simp only [List.any_eq_true, decide_eq_true_eq]
    exact ⟨p, hp, hhead.symm⟩
  have hsub : ∀ sp ∈ getSubPaths paths key, sp ≠ [] := by
    intro sp hsp
    simp only [getSubPaths, List.mem_map] at hsp
    obtain ⟨q, hq, rfl⟩ := hsp
    have hqf := List.mem_filter.mp hq
    exact hnoterm q hqf.1 (by simpa using hqf.2)
  have h2 : (getSubPaths paths key).any (fun q => q.isEmpty) = false := by
    rw [List.any_eq_false]
    intro sp hsp
    simpa [List.isEmpty_iff] using hsub sp hsp
  rw [pruneValue_obj_call key m paths h1 h2]
  obtain ⟨-, r, hr⟩ := pruneObject_isOk m (getSubPaths paths key)
    (getSubPaths_ne_nil paths key h1) hsub
  rw [hr]
  exact ⟨r, rfl⟩

/-- A key absent from the keys of an association list looks up to nothing. -/
theorem lookupKey_eq_none_of_not_mem (k : String) (o : Obj)
    (h : k ∉ o.map Prod.fst) : lookupKey k o = none := by
  induction o with
  | nil => rfl
  | cons kv rest ih =>
    obtain ⟨k', v⟩ := kv
    simp only [List.map_cons, List.mem_cons, not_or] at h
    rw [lookupKey, if_neg (fun hk => h.1 hk.symm)]
    exact ih h.2

/-- An entry whose `pruneValue` result is non-nil is kept, with the first
occurrence of its key mapping to the filtered value. -/
theorem pruneEntries_lookup_kept (entries : Obj) (paths : List Path)
    (out : Obj) (k : String) (v w : Value)
    (hout : pruneEntries entries paths = .ok out)
    (hv : lookupKey k entries = some v)
    (hw : pruneValue k v paths = .ok w) (hnn : w ≠ .null) :
    lookupKey k out = some w := by
  induction entries generalizing out with
  | nil => simp [lookupKey] at hv
  | cons kv rest ih =>
    obtain ⟨k', v'⟩ := kv
    obtain ⟨fv, hfv⟩ := pruneValue_isOk k' v' paths
    obtain ⟨rest', hrest⟩ := pruneEntries_isOk rest paths
    simp only [pruneEntries, hfv, hrest] at hout
    by_cases hk : k' = k
    · subst hk
      rw [lookupKey, if_pos rfl] at hv
      obtain rfl : v' = v := by injection hv
      obtain rfl : fv = w := by
        have := hfv.symm.trans hw
        injection this
      cases fv with
      | null => exact absurd rfl hnn
      | obj m =>
        obtain rfl : (k', Value.obj m) :: rest' = out := by injection hout
        rw [lookupKey, if_pos rfl]
      | arr xs =>
        obtain rfl : (k', Value.arr xs) :: rest' = out := by injection hout
        rw [lookupKey, if_pos rfl]
      | str s =>
        obtain rfl : (k', Value.str s) :: rest' = out := by injection hout
        rw [lookupKey, if_pos rfl]
      | num n =>
        obtain rfl : (k', Value.num n) :: rest' = out := by injection hout
        rw [lookupKey, if_pos rfl]
      | bool b =>
        obtain rfl : (k', Value.bool b) :: rest' = out := by injection hout
        rw [lookupKey, if_pos rfl]
    · rw [lookupKey, if_neg hk] at hv
      cases fv with
      | null =>
        obtain rfl : rest' = out := by injection hout
        exact ih rest' hrest hv
      | obj m =>
        obtain rfl : (k', Value.obj m) :: rest' = out := by injection hout
        rw [lookupKey, if_neg hk]
        exact ih rest' hrest hv
      | arr xs =>
        obtain rfl : (k', Value.arr xs) :: rest' = out := by injection hout
        rw [lookupKey, if_neg hk]
        exact ih rest' hrest hv
      | str s =>
        obtain rfl : (k', Value.str s) :: rest' = out := by injection hout
        rw [lookupKey, if_neg hk]
        exact ih rest' hrest hv
      | num n =>
        obtain rfl : (k', Value.num n) :: rest' = out := by injection hout
        rw [lookupKey, if_neg hk]
        exact ih rest' hrest hv
      | bool b =>
        obtain rfl : (k', Value.bool b) :: rest' = out := by injection hout
        rw [lookupKey, if_neg hk]
        exact ih rest' hrest hv

/-- Keys absent from the input stay absent from the filtered output. -/
theorem pruneEntries_lookup_none (entries : Obj) (paths : List Path)
    (out : Obj) (k : String)
    (hout : pruneEntries entries paths = .ok out)
    (hv : lookupKey k entries = none) :
    lookupKey k out = none := by
  induction entries generalizing out with
  | nil =>
    obtain rfl : ([] : Obj) = out := by
      rw [show pruneEntries [] paths = Except.ok [] from rfl] at hout
      injection hout
    rfl
  | cons kv rest ih =>
    obtain ⟨k', v'⟩ := kv
    obtain ⟨fv, hfv⟩ := pruneValue_isOk k' v' paths
    obtain ⟨rest', hrest⟩ := pruneEntries_isOk rest paths
    simp only [pruneEntries, hfv, hrest] at hout
    rw [lookupKey] at hv
    by_cases hk : k' = k
    · rw [if_pos hk] at hv
      exact Option.noConfusion hv
    · rw [if_neg hk] at hv
      cases fv with
      | null =>
        obtain rfl : rest' = out := by injection hout
        exact ih rest' hrest hv
      | obj m =>
        obtain rfl : (k', Value.obj m) :: rest' = out := by injection hout
        rw [lookupKey, if_neg hk]
        exact ih rest' hrest hv
      | arr xs =>
        obtain rfl : (k', Value.arr xs) :: rest' = out := by injection hout
        rw [lookupKey, if_neg hk]
        exact ih rest' hrest hv
      | str s =>
        obtain rfl : (k', Value.str s) :: rest' = out := by injection hout
        rw [lookupKey, if_neg hk]
        exact ih rest' hrest hv
      | num n =>
        obtain rfl : (k', Value.num n) :: rest' = out := by injection hout
        rw [lookupKey, if_neg hk]
        exact ih rest' hrest hv
      | bool b =>
        obtain rfl : (k', Value.bool b) :: rest' = out := by injection hout
        rw [lookupKey, if_neg hk]
        exact ih rest' hrest hv

/-- For unique keys (Go maps), a JSON `null` entry is dropped from the
filtered output. -/
theorem pruneEntries_drops_null (entries : Obj) (paths : List Path)
    (out : Obj) (k : String)
    (hnd : (entries.map Prod.fst).Nodup)
    (hout : pruneEntries entries paths = .ok out)
    (hv : lookupKey k entries = some .null) :
    lookupKey k out = none := by
  induction entries generalizing out with
  | nil => simp [lookupKey] at hv
  | cons kv rest ih =>
    obtain ⟨k', v'⟩ := kv
    obtain ⟨fv, hfv⟩ := pruneValue_isOk k' v' paths
    obtain ⟨rest', hrest⟩ := pruneEntries_isOk rest paths
    simp only [pruneEntries, hfv, hrest] at hout
    simp only [List.map_cons, List.nodup_cons] at hnd
    by_cases hk : k' = k
    · subst hk
      rw [lookupKey, if_pos rfl] at hv
      obtain rfl : v' = Value.null := by injection hv
      obtain rfl : fv = Value.null := by
        have := hfv.symm.trans (pruneValue_null_eq k' paths)
        injection this
      obtain rfl : rest' = out := by injection hout
      exact pruneEntries_lookup_none rest paths rest' k' hrest
        (lookupKey_eq_none_of_not_mem k' rest hnd.1)
    · rw [lookupKey, if_neg hk] at hv
      cases fv with
      | null =>
        obtain rfl : rest' = out := by injection hout
        exact ih rest' hnd.2 hrest hv
      | obj m =>
        obtain rfl : (k', Value.obj m) :: rest' = out := by injection hout
        rw [lookupKey, if_neg hk]
        exact ih rest' hnd.2 hrest hv
      | arr xs =>
        obtain rfl : (k', Value.arr xs) :: rest' = out := by injection hout
        rw [lookupKey, if_neg hk]
        exact ih rest' hnd.2 hrest hv
      | str s =>
        obtain rfl : (k', Value.str s) :: rest' = out := by injection hout
        rw [lookupKey, if_neg hk]
        exact ih rest' hnd.2 hrest hv
      | num n =>
        obtain rfl : (k', Value.num n) :: rest' = out := by injection hout
        rw [lookupKey, if_neg hk]
        exact ih rest' hnd.2 hrest hv
      | bool b =>
        obtain rfl : (k', Value.bool b) :: rest' = out := by injection hout
        rw [lookupKey, if_neg hk]
        exact ih rest' hnd.2 hrest hv

/-- A successful `PruneObject` run is a successful per-entry filter run
(the validation at the top of `PruneObject` passed). -/
theorem pruneObject_ok_entries (t : Obj) (paths : List Path) (out : Obj)
    (hout : pruneObject t paths = .ok out) :
    pruneEntries t paths = .ok out := by
  rw [pruneObject] at hout
  by_cases hlen : paths.length = 0
  · rw [if_pos hlen] at hout
    exact Except.noConfusion hout
  · rw [if_neg hlen] at hout
    match hfind : paths.findIdx? (fun p => p.isEmpty) with
    | some i =>
      rw [hfind] at hout
      exact Except.noConfusion hout
    | none =>
      rw [hfind] at hout
      exact hout

/-!
## PruneObject claims
-/

/-- Claim C2, amended: For every tree, valid path set and top-level key: if
some path terminates exactly at that key, the value under the key is kept
verbatim — including non-object values — and this takes precedence over
longer paths sharing the head, *provided the value is not JSON null*; a
null value is dropped (see `pruneObject_drops_null_values`). -/
theorem pruneObject_terminal_path_keeps (t : Obj) (paths : List Path)
    (k : String) (v : Value)
    (hpne : paths ≠ []) (hvalid : ∀ p ∈ paths, p ≠ [])
    (hterm : ∃ p ∈ paths, pathHead p = k ∧ pathTail p = [])
    (hv : lookupKey k t = some v) (hnn : v ≠ .null) :
    ∃ t', pruneObject t paths = .ok t' ∧ lookupKey k t' = some v := by
  obtain ⟨heq, t', ht'⟩ := pruneObject_isOk t paths hpne hvalid
  refine ⟨t', ht', ?_⟩
  exact pruneEntries_lookup_kept t paths t' k v v (heq ▸ ht') hv
    (pruneValue_terminal k v paths hterm) hnn

/-- Counterexample for C2 as stated: the JSON null value at `"foo"` is
addressed by the terminating path `["foo"]`, yet it is *not* kept verbatim
— `PruneObject({"foo": null}, ["foo"]) == {}`. -/
theorem pruneObject_terminal_path_keeps_counterexample :
    pruneObject [("foo", Value.null)] [["foo"]] = .ok [] ∧
      pruneObject [("foo", Value.null)] [["foo"]] ≠ .ok [("foo", Value.null)] := by
  refine ⟨rfl, ?_⟩
  rw [show pruneObject [("foo", Value.null)] [["foo"]] = .ok [] from rfl]
  intro h
  have hlists : ([] : Obj) = [("foo", Value.null)] := by injection h
  exact absurd hlists (by simp)

/-- Witness for C2 (amended): the terminal path `metadata` wins over the
more specific sibling `metadata.name` and the tree is returned unchanged. -/
theorem pruneObject_terminal_path_keeps_witness :
    (∃ t', pruneObject
        [("metadata", Value.obj [("name", Value.str "n"), ("namespace", Value.str "ns")])]
        [["metadata", "name"], ["metadata"]] = .ok t' ∧
        lookupKey "metadata" t'
          = some (Value.obj [("name", Value.str "n"), ("namespace", Value.str "ns")])) ∧
      pruneObject
        [("metadata", Value.obj [("name", Value.str "n"), ("namespace", Value.str "ns")])]
        [["metadata", "name"], ["metadata"]]
      = .ok [("metadata", Value.obj [("name", Value.str "n"), ("namespace", Value.str "ns")])] := by
  refine ⟨pruneObject_terminal_path_keeps _ _ "metadata" _ (by simp) (by decide)
    ⟨["metadata"], by simp, rfl, rfl⟩ rfl (by simp), rfl⟩

/-- Claim C9: For a tree with unique top-level keys, every key holding JSON
null is absent from a successful `PruneObject` result — even when a path
terminates exactly at the key: a null value is never kept. -/
theorem pruneObject_drops_null_values (t : Obj) (paths : List Path)
    (out : Obj) (k : String)
    (hnd : (t.map Prod.fst).Nodup)
    (hout : pruneObject t paths = .ok out)
    (hv : lookupKey k t = some .null) :
    lookupKey k out = none :=
  pruneEntries_drops_null t paths out k hnd (pruneObject_ok_entries t paths out hout) hv

/-- Witness for C9: `PruneObject({"foo": null}, ["foo"]) == {}` and the key
is gone. -/
theorem pruneObject_drops_null_values_witness :
    pruneObject [("foo", Value.null)] [["foo"]] = .ok [] ∧
      lookupKey "foo" ([] : Obj) = none := by
  refine ⟨rfl, ?_⟩
  exact pruneObject_drops_null_values [("foo", Value.null)] [["foo"]] [] "foo"
    (by simp) rfl rfl

/-- Claim C10: `PruneObject` does not collapse emptied parents: a key holding
an object survives (still holding an object, possibly empty) whenever some
path matches its head, no matching path terminates at it, and the run
succeeds — unlike `RemovePath`, which deletes an emptied parent. -/
theorem pruneObject_keeps_emptied_parent (t : Obj) (paths : List Path)
    (out : Obj) (k : String) (m : Obj)
    (hv : lookupKey k t = some (.obj m))
    (hmatch : ∃ p ∈ paths, pathHead p = k)
    (hnoterm : ∀ p ∈ paths, pathHead p = k → pathTail p ≠ [])
    (hout : pruneObject t paths = .ok out) :
    ∃ m', lookupKey k out = some (.obj m') := by
  obtain ⟨m', hm'⟩ := pruneValue_obj_nonterminal k m paths hmatch hnoterm
  exact ⟨m', pruneEntries_lookup_kept t paths out k (.obj m) (.obj m')
    (pruneObject_ok_entries t paths out hout) hv hm' (by simp)⟩

/-- Witness for C10: `PruneObject({"a":{"b":1}}, ["a.c"]) == {"a":{}}` —
the emptied parent `a` stays. -/
theorem pruneObject_keeps_emptied_parent_witness :
    pruneObject [("a", Value.obj [("b", Value.num 1)])] [["a", "c"]]
      = .ok [("a", Value.obj [])] ∧
    ∃ m', lookupKey "a" [("a", Value.obj [])] = some (Value.obj m') := by
  refine ⟨rfl, ?_⟩
  exact pruneObject_keeps_emptied_parent
    [("a", Value.obj [("b", Value.num 1)])] [["a", "c"]]
    [("a", Value.obj [])] "a" [("b", Value.num 1)] rfl
    ⟨["a", "c"], by simp, rfl⟩ (by decide) rfl

/-!
## ParsePath claim
-/

/-- Claim C8: Path parsing fails iff the expression is empty
(`EmptyExpression`) or every `.`-delimited token is empty
(`NoValidSegments`); on success the result is exactly the ordered list of
the non-empty tokens, which is non-empty and has no empty segment. -/
theorem parsePath_spec (s : String) :
    ((∃ e, parsePath s = .error e) ↔ (s = "" ∨ ∀ t ∈ splitOnDot s, t = "")) ∧
    (s = "" → parsePath s = .error "path cannot be empty") ∧
    ((s ≠ "" ∧ ∀ t ∈ splitOnDot s, t = "") →
      parsePath s = .error "path does not contain a single path element") ∧
    (∀ l, parsePath s = .ok l →
      l = (splitOnDot s).filter (fun t => t ≠ "") ∧ l ≠ [] ∧ ∀ t ∈ l, t ≠ "") := by
  have hfilter : ((splitOnDot s).filter (fun t => t ≠ "") = []) ↔
      (∀ t ∈ splitOnDot s, t = "") := by
    rw [List.filter_eq_nil_iff]
    constructor
    · intro h t ht
      have := h t ht
      simpa using this
    · intro h t ht
      simpa using h t ht
  by_cases hs : s = ""
  · subst hs
    refine ⟨⟨fun _ => Or.inl rfl, fun _ => ⟨_, rfl⟩⟩, fun _ => rfl,
      fun h => absurd rfl h.1, fun l hl => ?_⟩
    exact Except.noConfusion hl
  · by_cases hf : (splitOnDot s).filter (fun t => t ≠ "") = []
    · have herr : parsePath s = .error "path does not contain a single path element" := by
        simp only [parsePath, if_neg hs, hf]
        rfl
      refine ⟨⟨fun _ => Or.inr (hfilter.mp hf), fun _ => ⟨_, herr⟩⟩,
        fun h => absurd h hs, fun _ => herr, fun l hl => ?_⟩
      rw [herr] at hl
      exact Except.noConfusion hl
    · have hok : parsePath s = .ok ((splitOnDot s).filter (fun t => t ≠ "")) := by
        simp only [parsePath, if_neg hs, if_neg hf]
      refine ⟨⟨fun ⟨e, he⟩ => ?_, fun h => ?_⟩, fun h => absurd h hs,
        fun h => absurd (hfilter.mpr h.2) hf, fun l hl => ?_⟩
      · rw [hok] at he
        exact Except.noConfusion he
      · rcases h with h | h
        · exact absurd h hs
        · exact absurd (hfilter.mpr h) hf
      · rw [hok] at hl
        obtain rfl : (splitOnDot s).filter (fun t => t ≠ "") = l := by injection hl
        refine ⟨rfl, hf, ?_⟩
        intro t ht
        have := List.of_mem_filter ht
        simpa using this

/-- Witness for C8: the three behaviours at concrete expressions. -/
theorem parsePath_spec_witness :
    parsePath "" = .error "path cannot be empty" ∧
    parsePath "..." = .error "path does not contain a single path element" ∧
    (parsePath "a..b" = .ok ["a", "b"] ∧ (["a", "b"] : List String) ≠ [] ∧
      ∀ t ∈ (["a", "b"] : List String), t ≠ "") := by
  refine ⟨(parsePath_spec "").2.1 rfl,
    (parsePath_spec "...").2.2.1 ⟨by decide, by decide⟩, rfl, ?_⟩
  exact ((parsePath_spec "a..b").2.2.2 ["a", "b"] rfl).2

/-!
## Resource cache claims
-/

mutual

/-- Deep-copying a generic value yields a structurally equal value. -/
theorem deepCopyValue_eq (v : Value) : deepCopyValue v = v := by
  cases v with
  | obj m => rw [deepCopyValue, deepCopyEntries_eq]
  | arr xs => rw [deepCopyValue, deepCopyList_eq]
  | str s => rfl
  | num n => rfl
  | bool b => rfl
  | null => rfl

/-- Deep-copying a slice of generic values yields an equal slice. -/
theorem deepCopyList_eq (xs : List Value) : deepCopyList xs = xs := by
  cases xs with
  | nil => rfl
  | cons v rest => rw [deepCopyList, deepCopyValue_eq, deepCopyList_eq]

/-- Deep-copying a generic object yields an equal object. -/
theorem deepCopyEntries_eq (m : Obj) : deepCopyEntries m = m := by
  cases m with
  | nil => rfl
  | cons kv rest =>
    obtain ⟨k, v⟩ := kv
    rw [deepCopyEntries, deepCopyValue_eq, deepCopyEntries_eq]

end

/-- Go `DeepCopy` of an unstructured object is structurally the identity. -/
theorem deepCopy_eq (o : Unstructured) : deepCopy o = o := by
  cases o
  simp [deepCopy, deepCopyEntries_eq]

/-- Reading a freshly written Go map key yields the written value. -/
theorem mapGet_mapSet_self {α : Type} (k : String) (v : α)
    (m : List (String × α)) : mapGet k (mapSet k v m) = some v := by
  rw [mapSet, mapGet, if_pos rfl]

/-- Reading a freshly deleted Go map key yields nothing. -/
theorem mapGet_mapDelete_self {α : Type} (k : String)
    (m : List (String × α)) : mapGet k (mapDelete k m) = none := by
  induction m with
  | nil => rfl
  | cons kv rest ih =>
    obtain ⟨k', v⟩ := kv
    by_cases h : k' = k
    · simpa [mapDelete, List.filter_cons, h] using ih
    · simpa [mapDelete, List.filter_cons, h, mapGet] using ih

/-- Claim C7: `Get` after `Set(k, v)` returns a snapshot structurally equal
to `v` (an independent deep copy is stored and a further deep copy is
handed out, so mutation of either side cannot affect the other) together
with the timestamp recorded at the `Set`; `Get` after `Delete(k)` returns
absent with the zero timestamp. -/
theorem cache_set_get_delete (rc : ResourceCache) (u v : Unstructured)
    (now : Nat) (hkey : cacheObjectKey u = cacheObjectKey v) :
    cacheGet (cacheSet rc v now) u = (some v, now) ∧
    cacheGet (cacheDelete rc v) u = (none, 0) ∧
    deepCopy v = v := by
  refine ⟨?_, ?_, deepCopy_eq v⟩
  · rw [cacheGet, hkey, cacheSet, mapGet_mapSet_self]
    simp [deepCopy_eq]
  · rw [cacheGet, hkey, cacheDelete, mapGet_mapDelete_self]

/-- Witness for C7 at a concrete object and cache. -/
theorem cache_set_get_delete_witness :
    cacheGet (cacheSet []
        ⟨"apps", "v1", "Deployment", "default", "web", "42", 3,
          [("spec", Value.obj [("replicas", Value.num 2)])]⟩ 5)
        ⟨"apps", "v1", "Deployment", "default", "web", "42", 3,
          [("spec", Value.obj [("replicas", Value.num 2)])]⟩
      = (some ⟨"apps", "v1", "Deployment", "default", "web", "42", 3,
          [("spec", Value.obj [("replicas", Value.num 2)])]⟩, 5) ∧
    cacheGet (cacheDelete []
        ⟨"apps", "v1", "Deployment", "default", "web", "42", 3,
          [("spec", Value.obj [("replicas", Value.num 2)])]⟩)
        ⟨"apps", "v1", "Deployment", "default", "web", "42", 3,
          [("spec", Value.obj [("replicas", Value.num 2)])]⟩
      = (none, 0) := by
  have h := cache_set_get_delete []
    ⟨"apps", "v1", "Deployment", "default", "web", "42", 3,
      [("spec", Value.obj [("replicas", Value.num 2)])]⟩
    ⟨"apps", "v1", "Deployment", "default", "web", "42", 3,
      [("spec", Value.obj [("replicas", Value.num 2)])]⟩ 5 rfl
  exact ⟨h.1, h.2.1⟩

/-!
## Printer claim
-/

/-- Claim C6: `Printer.Print` updates the cache identically whether the
render succeeded or failed (the render result is only logged): the new
cache is `Set` for Added and Modified, `Delete` for Deleted, and unchanged
for other event types — for every choice of the external encoding and
rendering functions and any differ options, including ones whose
preprocessing fails.  Being a total function, the dispatcher cannot crash
on a render error. -/
theorem printerPrint_cache_independent (enc : Value → String)
    (fmtTime : Nat → String)
    (render : String → String → String → String → Int → ColorTheme → String)
    (opt : DiffOptions) (rc : ResourceCache) (obj : Unstructured)
    (ev : EventType) (now : Nat) :
    (printerPrint enc fmtTime render opt rc obj ev now).1 =
      (match ev with
       | .added => cacheSet rc obj now
       | .modified => cacheSet rc obj now
       | .deleted => cacheDelete rc obj
       | _ => rc) ∧
    ∀ (enc' : Value → String) (fmtTime' : Nat → String)
      (render' : String → String → String → String → Int → ColorTheme → String)
      (opt' : DiffOptions),
      (printerPrint enc' fmtTime' render' opt' rc obj ev now).1 =
        (printerPrint enc fmtTime render opt rc obj ev now).1 := by
  constructor
  · cases ev <;> rfl
  · intro enc' fmtTime' render' opt'
    cases ev <;> rfl

/-!
## Differ preprocessing claim
-/

/-- Claim C3: The differ's preprocessing is the staged pipeline of the spec:
query extraction first, then include pruning (when configured), then each
exclude path removed sequentially; and when the query collapses the
snapshot to a non-object value, the include/exclude stages are skipped
entirely — the result is the encoded query value, independent of whatever
include and exclude paths are configured. -/
theorem preprocess_stage_order (enc : Value → String) (opt : DiffOptions)
    (o : Unstructured) :
    preprocess enc opt (some o) = specProjectionPipeline enc opt (some o) ∧
    (∀ (q : Obj → Option Value) (v : Value),
      opt.compiledJSONPath = some q → q o.content = some v →
      (∀ m, v ≠ Value.obj m) →
      preprocess enc opt (some o) = .ok (enc v) ∧
      ∀ P1 P2 : List Path,
        preprocess enc
          { opt with parsedIncludePaths := P1, parsedExcludePaths := P2 }
          (some o) = .ok (enc v)) := by
  have hstage : ∀ (m : Obj),
      (match (if opt.parsedIncludePaths.length > 0
              then pruneObject m opt.parsedIncludePaths else .ok m) with
       | .error e => Except.error ("failed to apply include inpressions: " ++ e)
       | .ok o2 =>
         match (if opt.parsedExcludePaths.length > 0
                then removeAll o2 opt.parsedExcludePaths else .ok o2) with
         | .error e => Except.error e
         | .ok o3 => Except.ok (enc (.obj o3)))
      = (match (if opt.parsedIncludePaths ≠ []
                then pruneObject m opt.parsedIncludePaths else .ok m) with
         | .error e => Except.error ("failed to apply include inpressions: " ++ e)
         | .ok o2 =>
           match removeAll o2 opt.parsedExcludePaths with
           | .error e => Except.error e
           | .ok o3 => Except.ok (enc (.obj o3))) := by
    intro m
    have hinc : (if opt.parsedIncludePaths.length > 0
        then pruneObject m opt.parsedIncludePaths else .ok m)
        = (if opt.parsedIncludePaths ≠ []
           then pruneObject m opt.parsedIncludePaths else .ok m) := by
      by_cases h : opt.parsedIncludePaths = [] <;>
        simp [h, List.length_pos]
    rw [hinc]
    cases hpr : (if opt.parsedIncludePaths ≠ []
        then pruneObject m opt.parsedIncludePaths else .ok m) with
    | error e => rfl
    | ok o2 =>
      by_cases h : opt.parsedExcludePaths = []
      · simp [h, removeAll]
      · simp [List.length_pos.mpr h]
  constructor
  · match hq : opt.compiledJSONPath with
    | none =>
      simp only [preprocess, specProjectionPipeline, queryStage, hq]
      exact hstage o.content
    | some q =>
      match hqv : q o.content with
      | none =>
        simp only [preprocess, specProjectionPipeline, queryStage, hq, hqv]
        exact hstage o.content
      | some (Value.obj m) =>
        simp only [preprocess, specProjectionPipeline, queryStage, hq, hqv]
        exact hstage m
      | some (Value.arr xs) =>
        simp only [preprocess, specProjectionPipeline, queryStage, hq, hqv]
      | some (Value.str s) =>
        simp only [preprocess, specProjectionPipeline, queryStage, hq, hqv]
      | some (Value.num n) =>
        simp only [preprocess, specProjectionPipeline, queryStage, hq, hqv]
      | some (Value.bool b) =>
        simp only [preprocess, specProjectionPipeline, queryStage, hq, hqv]
      | some Value.null =>
        simp only [preprocess, specProjectionPipeline, queryStage, hq, hqv]
  · intro q v hq hv hnobj
    have hqs : ∀ P1 P2 : List Path,
        queryStage { opt with parsedIncludePaths := P1, parsedExcludePaths := P2 }
          o.content = Sum.inr v := by
      intro P1 P2
      cases v with
      | obj m => exact absurd rfl (hnobj m)
      | arr xs => simp only [queryStage, hq, hv]
      | str s => simp only [queryStage, hq, hv]
      | num n => simp only [queryStage, hq, hv]
      | bool b => simp only [queryStage, hq, hv]
      | null => simp only [queryStage, hq, hv]
    have hqs0 : queryStage opt o.content = Sum.inr v := by
      have := hqs opt.parsedIncludePaths opt.parsedExcludePaths
      simpa using this
    constructor
    · simp only [preprocess, hqs0]
    · intro P1 P2
      simp only [preprocess, hqs P1 P2]

/-- Witness for C3: a query collapsing the snapshot to the scalar `"s"`
makes preprocessing return its encoding, with include/exclude skipped. -/
theorem preprocess_stage_order_witness :
    preprocess (fun _ => "yaml")
      ⟨3, true, true, "q", some (fun _ => some (Value.str "s")), [], [["metadata"]],
        [], [["status"]], (fun _ => none), (fun _ => none), (fun _ => none)⟩
      (some ⟨"g", "v1", "Kind", "ns", "n", "1", 1, [("a", Value.null)]⟩)
      = .ok "yaml" := by
  have h := (preprocess_stage_order (fun _ => "yaml")
    ⟨3, true, true, "q", some (fun _ => some (Value.str "s")), [], [["metadata"]],
      [], [["status"]], (fun _ => none), (fun _ => none), (fun _ => none)⟩
    ⟨"g", "v1", "Kind", "ns", "n", "1", 1, [("a", Value.null)]⟩).2
    (fun _ => some (Value.str "s")) (Value.str "s") rfl rfl
    (by intro m hm; simp at hm)
  exact h.1

/-!
## CLI wiring claim
-/

/-- Claim C4, code bug: `main.go` hardcodes `DisableWordDiff: true` when
building the differ options, so the parsed `--diff-by-line` flag has no
effect whatsoever: the constructed options are identical for both flag
values and the rendering is always in line-diff mode, contradicting the
flag's own documentation ("diff entire lines...", default `false`) and the
spec's "word-diff vs line-diff" configuration option. -/
theorem mainDifferOptions_ignores_diff_by_line
    (c u d : ColorTheme) (opt : CLIOptions) :
    (mainDifferOptions c u d opt).disableWordDiff = true ∧
    ∀ b₁ b₂ : Bool,
      mainDifferOptions c u d { opt with disableWordDiff := b₁ } =
        mainDifferOptions c u d { opt with disableWordDiff := b₂ } := by
  constructor
  · rw [mainDifferOptions]
    by_cases h : opt.hideManagedFields = true
    · rw [if_pos h]
    · rw [if_neg h]
  · intro b₁ b₂
    rfl

end Stalk
